import Mathlib

/-!
Verification of the promo-code discovery and usage-aggregation engine of
`telegram_bot.py` (myrace_helper).

The crawl loop (`_collect_promo_view_links`), the detail phase and the error
handling of `_gather_promos_with_usage`, and the report-preparation pipeline of
`checkpromos` are embedded as executable Lean functions.  HTTP fetching and
HTML scanning (BeautifulSoup) are abstracted as oracles: a fetch oracle maps a
task to `none` (transport failure / non-2xx) or to the extraction outcome of
the fetched body (the discovered detail links, and the pagination/directive
tasks mined from the page).  Everything downstream of those oracles — queueing,
the visited set, the request budget, result merging, callback invocation,
filtering, sorting and grouping — is translated directly from the source.

Python strings are modelled as Lean `String`s; the string operations the code
relies on (`<` and `<=` comparison by code point, `in` substring test,
`strip`, `lower`, `upper`) are implemented over `String.toList` so that every
definition evaluates by kernel reduction.
-/

/-- Python string comparison `s < t`: lexicographic on code points
(Boolean worker on the underlying character lists). -/
def strLtB : List Char → List Char → Bool
  | [], [] => false
  | [], _ :: _ => true
  | _ :: _, [] => false
  | a :: as, b :: bs => if a < b then true else if b < a then false else strLtB as bs

/-- Python `s < t` on strings. -/
def pyStrLt (s t : String) : Prop := strLtB s.toList t.toList = true

/-- Python `s <= t` on strings (total order, the negation of `t < s`). -/
def pyStrLe (s t : String) : Prop := strLtB t.toList s.toList = false

instance : DecidableRel pyStrLt := fun s t => by unfold pyStrLt; infer_instance

instance : DecidableRel pyStrLe := fun s t => by unfold pyStrLe; infer_instance

/-- Python `c.lower()` / `c.upper()` on a whole string, by character. -/
def pyLower (s : String) : String := String.mk (s.toList.map Char.toLower)

/-- Python `s.upper()` (used by `_enqueue` for the HTTP method). -/
def pyUpper (s : String) : String := String.mk (s.toList.map Char.toUpper)

/-- Python `s.strip()`: drop whitespace from both ends. -/
def pyStrip (s : String) : String :=
  String.mk (((s.toList.dropWhile Char.isWhitespace).reverse.dropWhile
    Char.isWhitespace).reverse)

/-- Boolean worker for the Python substring test `needle in hay`. -/
def strContainsAux (needle : List Char) : List Char → Bool
  | [] => needle.isEmpty
  | c :: rest => needle.isPrefixOf (c :: rest) || strContainsAux needle rest

/-- Python `needle in hay` on strings. -/
def strContains (hay needle : String) : Bool := strContainsAux needle.toList hay.toList

/-! ## Data model (telegram_bot.py lines 1163-1168, 1320-1334) -/

/-- A crawl task: `(method, url, normalized payload)`, exactly the tuples held in
`queue` and `visited` in `_collect_promo_view_links`.  `payload = none` models
Python `None` (which `_normalize_data` also returns for an empty dict); a
`some` payload is the canonical sorted tuple of `(key, value)` pairs. -/
structure CrawlTask where
  method : String
  url : String
  payload : Option (List (String × String))
deriving DecidableEq, Repr

/-- One `PromoUsageInfo` record (the `@dataclass` at lines 1163-1168). -/
structure PromoUsageInfo where
  code : Option String
  usage_left : Option Int
  url : String
  discount_percent : Option Int := none
deriving DecidableEq, Repr

/-- One recorded invocation of the progress callback: the arguments
`(request_count, len(queue), lastUrl)` passed at lines 1512 and 1527, plus
whether the callback raised (the exception is caught and only logged). -/
structure CbEvent where
  issuedCount : Nat
  pending : Nat
  lastUrl : String
  raised : Bool
deriving DecidableEq, Repr

/-- Abstraction of one successful fetch + BeautifulSoup scan of the body:
the resolved response URL, the detail-link discoveries `(full, text, discount)`
accumulated in `found`, and the raw `(method, url, data)` triples that the
pagination/htmx directive scans pass to `_enqueue`. -/
structure ExtractResult where
  responseUrl : String
  found : List (String × Option String × Option Int)
  newTasks : List (String × String × List (String × String))
deriving Repr

/-- The mutable state of the fetch loop of `_collect_promo_view_links`.
`issued` is the trace of tasks actually sent over HTTP (one entry per executed
request, in order) and `cbTrace` the trace of progress-callback invocations;
both are observational traces of effects the Python code performs. -/
structure CrawlState where
  queue : List CrawlTask
  visited : List CrawlTask
  results : List (String × Option String × Option Int)
  requestCount : Nat
  issued : List CrawlTask
  cbTrace : List CbEvent
deriving DecidableEq, Repr

/-! ## Task normalization (`_normalize_data`, `_enqueue`; lines 1331-1339) -/

/-- Python tuple comparison `(k1, v1) <= (k2, v2)` used by `sorted` on dict
items: lexicographic on the two strings. -/
def pairLe (a b : String × String) : Prop :=
  pyStrLt a.1 b.1 ∨ (a.1 = b.1 ∧ pyStrLe a.2 b.2)

instance : DecidableRel pairLe := fun a b => by unfold pairLe; infer_instance

/-- `_normalize_data`: `None`/empty dict becomes `none`, otherwise the sorted
tuple of `(key, value)` pairs. -/
def normalize_data (data : List (String × String)) : Option (List (String × String)) :=
  if data.isEmpty then none else some (List.insertionSort pairLe data)

/-- `_enqueue`: uppercase the method and normalize the payload. -/
def mkTask (method url : String) (data : List (String × String)) : CrawlTask :=
  ⟨pyUpper method, url, normalize_data data⟩

/-! ## Result merging (`_collect_promo_view_links` lines 1490-1508) -/

/-- Python `prev_text or text` on optional strings: keep `prev_text` unless it
is `None` (or the falsy empty string). -/
def pyOrOpt (a b : Option String) : Option String :=
  match a with
  | some s => if s = "" then b else some s
  | none => b

/-- Python `prev_discount if prev_discount is not None else discount`. -/
def keepFirst (a b : Option Int) : Option Int :=
  match a with
  | some n => some n
  | none => b

/-- The per-URL merge of a later discovery into the stored `(text, discount)`
pair (lines 1499-1500). -/
def merge_promo_meta (prev newv : Option String × Option Int) :
    Option String × Option Int :=
  (pyOrOpt prev.1 newv.1, keepFirst prev.2 newv.2)

/-- Fold one discovered `(full, text, discount)` into the results: skipped
unless the URL mentions `/races/{race_id}` or `/promo/view/`; inserted verbatim
if unseen; otherwise merged with `merge_promo_meta`.  The Python pair
`results_order`/`results_map` is represented as one insertion-ordered
association list. -/
def mergeFound (raceId : String) (acc : List (String × Option String × Option Int))
    (item : String × Option String × Option Int) :
    List (String × Option String × Option Int) :=
  if !(strContains item.1 ("/races/" ++ raceId)) && !(strContains item.1 "/promo/view/")
  then acc
  else
    match acc.lookup item.1 with
    | none => acc ++ [item]
    | some prev =>
      acc.map (fun e => if e.1 = item.1 then (item.1, merge_promo_meta prev item.2) else e)

/-! ## The fetch loop (`_collect_promo_view_links` lines 1373-1531) -/

/-- Pop tasks already in the visited set off the front of the queue (the
`continue` branch at lines 1379-1381, which issues no request). -/
def dropVisited (visited : List CrawlTask) : List CrawlTask → List CrawlTask
  | [] => []
  | t :: rest => if t ∈ visited then dropVisited visited rest else t :: rest

/-- One budget-indexed unfolding of the `while queue and request_count <
max_requests` loop.  The budget argument is `max_requests - request_count`,
so `0` is budget exhaustion; a visited task is skipped without consuming
budget via `dropVisited`.  On a fetch failure (`fetch t = none`) the task is
dropped silently; on success the found links are merged, the mined tasks are
appended to the queue tail, and the progress callback (if supplied) is invoked
with `(request_count, len(queue), response.url)`, any exception it raises
being swallowed. -/
def crawlStep (fetch : CrawlTask → Option ExtractResult) (raceId : String)
    (cb : Option (Nat → Nat → String → Bool)) : Nat → CrawlState → CrawlState
  | 0, st => st
  | b + 1, st =>
    match dropVisited st.visited st.queue with
    | [] => { st with queue := [] }
    | t :: rest =>
      let count := st.requestCount + 1
      let base : CrawlState :=
        { st with queue := rest, visited := t :: st.visited,
                  requestCount := count, issued := st.issued ++ [t] }
      match fetch t with
      | none => crawlStep fetch raceId cb b base
      | some res =>
        let q2 := rest ++ res.newTasks.map (fun nt => mkTask nt.1 nt.2.1 nt.2.2)
        let results2 := res.found.foldl (mergeFound raceId) st.results
        let trace2 :=
          match cb with
          | none => base.cbTrace
          | some f => base.cbTrace ++
              [⟨count, q2.length, res.responseUrl, f count q2.length res.responseUrl⟩]
        crawlStep fetch raceId cb b
          { base with queue := q2, results := results2, cbTrace := trace2 }

/-- The fetch loop run to completion from the seeded queue: every seed triple
goes through `_enqueue` (`mkTask`), the budget is `max(80, 2 * len(queue))`
computed at line 1374, and the loop starts from the empty visited set and
empty results. -/
def collect_links_state (fetch : CrawlTask → Option ExtractResult) (raceId : String)
    (cb : Option (Nat → Nat → String → Bool))
    (initTasks : List (String × String × List (String × String))) : CrawlState :=
  let initQueue := initTasks.map (fun nt => mkTask nt.1 nt.2.1 nt.2.2)
  crawlStep fetch raceId cb (max 80 (2 * initQueue.length))
    ⟨initQueue, [], [], 0, [], []⟩

/-- `_collect_promo_view_links`: the loop, then one final progress-callback
invocation with an empty `lastUrl` (lines 1525-1529); the returned link list
is the `results` field of the final state. -/
def collect_promo_view_links (fetch : CrawlTask → Option ExtractResult) (raceId : String)
    (cb : Option (Nat → Nat → String → Bool))
    (initTasks : List (String × String × List (String × String))) : CrawlState :=
  let st := collect_links_state fetch raceId cb initTasks
  match cb with
  | none => st
  | some f =>
    { st with cbTrace := st.cbTrace ++
        [⟨st.requestCount, st.queue.length, "",
          f st.requestCount st.queue.length ""⟩] }

/-! ## Detail phase and error handling (`_gather_promos_with_usage`,
`_extract_code_from_url`; lines 1313-1317 and 1534-1567) -/

/-- The `PROMO_LIST_URLS` templates (lines 57-63), as functions of the race id
(Python `template.format(race_id=...)`). -/
def PROMO_LIST_URLS : List (String → String) :=
  [ fun rid => "https://myrace.info/promo/races/" ++ rid ++ "/slots",
    fun rid => "https://myrace.info/promo/races/" ++ rid,
    fun rid => "https://myrace.info/race/coupons/list/" ++ rid,
    fun rid => "https://myrace.info/races/" ++ rid ++ "/coupons/",
    fun rid => "https://myrace.info/races/" ++ rid ++ "/coupons/items/" ]

/-- `PROMO_LIST_URLS[0].format(race_id=race_id)`: the primary listing URL used
for the diagnostic fetch at line 1544. -/
def primary_list_url (raceId : String) : String :=
  (PROMO_LIST_URLS.get ⟨0, by decide⟩) raceId

/-- Worker for the `re.search(r"/promo/view/(\d+)", url)` of
`_extract_code_from_url`: find the leftmost occurrence of the literal
`/promo/view/` that is followed by at least one digit and return the maximal
digit run after it. -/
def promoViewDigits : List Char → Option (List Char)
  | [] => none
  | c :: rest =>
    if ("/promo/view/".toList).isPrefixOf (c :: rest) then
      let ds := ((c :: rest).drop ("/promo/view/".toList).length).takeWhile Char.isDigit
      if ds.isEmpty then promoViewDigits rest else some ds
    else promoViewDigits rest

/-- `_extract_code_from_url`: the synthetic `promo-{id}` code, or the URL
itself when no `/promo/view/{digits}` segment is present. -/
def extract_code_from_url (url : String) : String :=
  match promoViewDigits url.toList with
  | some ds => "promo-" ++ String.mk ds
  | none => url

/-- Python `a or b` where `a` is an optional string and `b` a plain string:
`b` when `a` is `None` or empty. -/
def pyOrStr (a : Option String) (b : String) : String :=
  match a with
  | some s => if s = "" then b else s
  | none => b

/-- The per-link detail pass of `_gather_promos_with_usage` (lines 1552-1567):
`detailFetch` is the plain `session.get` of a detail page (`none` = raised),
`extractCode`/`extractUsage` abstract `_extract_code_from_html` and
`_extract_usage_value`.  A failed fetch still yields a record, with
`usage_left = none`, `code` equal to the anchor text and no discount; a
successful fetch extracts the code with the `or`-fallback chain ending in the
synthetic URL-derived code. -/
def detail_phase (detailFetch : String → Option String)
    (extractCode : String → Option String) (extractUsage : String → Option Int)
    (links : List (String × Option String × Option Int)) : List PromoUsageInfo :=
  links.map (fun l =>
    match detailFetch l.1 with
    | none => ⟨l.2.1, none, l.1, none⟩
    | some html =>
      ⟨some (pyOrStr (extractCode html) (pyOrStr l.2.1 (extract_code_from_url l.1))),
       extractUsage html, l.1, l.2.2⟩)

/-- Outcome of `_gather_promos_with_usage`: either the `RuntimeError` raised
after the diagnostic fetch of the primary listing URL (whose URL and optional
body the error constructor records), or the list of `PromoUsageInfo`. -/
inductive GatherResult where
  | err (diagUrl : String) (diagBody : Option String)
  | ok (promos : List PromoUsageInfo)
deriving DecidableEq, Repr

/-- `_gather_promos_with_usage` (lines 1534-1567): run the crawl; on zero
discovered links perform the diagnostic fetch of the primary listing URL and
raise; otherwise run the detail pass over the discovered links. -/
def gather_promos_with_usage (fetch : CrawlTask → Option ExtractResult)
    (raceId : String) (cb : Option (Nat → Nat → String → Bool))
    (initTasks : List (String × String × List (String × String)))
    (detailFetch : String → Option String)
    (extractCode : String → Option String) (extractUsage : String → Option Int) :
    GatherResult :=
  let links := (collect_promo_view_links fetch raceId cb initTasks).results
  if links.isEmpty then
    GatherResult.err (primary_list_url raceId) (detailFetch (primary_list_url raceId))
  else
    GatherResult.ok (detail_phase detailFetch extractCode extractUsage links)

/-! ## The throttled progress callback of `checkpromos` (lines 752-760) -/

/-- `progress_cb` in `checkpromos`: given the monotonic-clock timestamps of the
crawl's callback invocations, forward only those at least 0.5 seconds after
the last forwarded one (`progress_state["last"]` starts at `0.0`). -/
def progress_cb_filter (last : ℚ) :
    List (ℚ × Nat × Nat × String) → List (ℚ × Nat × Nat × String)
  | [] => []
  | (t, args) :: rest =>
    if t - last < 1/2 then progress_cb_filter last rest
    else (t, args) :: progress_cb_filter t rest

/-! ## Report preparation in `checkpromos` (lines 788-859) -/

/-- `_code_text`: the record's code, or the synthetic URL-derived code when the
code is `None` (or empty), stripped. -/
def code_text (info : PromoUsageInfo) : String :=
  pyStrip (pyOrStr info.code (extract_code_from_url info.url))

/-- `_sort_key`: `(usage_left with None as -1, code text lowercased)`. -/
def sort_key (info : PromoUsageInfo) : Int × String :=
  ((info.usage_left).getD (-1), pyLower (code_text info))

/-- Python tuple comparison on the sort keys. -/
def sortKeyLe (a b : Int × String) : Prop :=
  a.1 < b.1 ∨ (a.1 = b.1 ∧ pyStrLe a.2 b.2)

instance : DecidableRel sortKeyLe := fun a b => by unfold sortKeyLe; infer_instance

/-- The comparison realised by `sorted(active, key=_sort_key, reverse=True)`:
`x` may precede `y` iff `sort_key y <= sort_key x`. -/
def sortDescR (x y : PromoUsageInfo) : Prop := sortKeyLe (sort_key y) (sort_key x)

instance : DecidableRel sortDescR := fun x y => by unfold sortDescR; infer_instance

/-- The `active` filter (lines 788-790): keep entries whose `usage_left` is
`None` or differs from `0`. -/
def activePromos (promos : List PromoUsageInfo) : List PromoUsageInfo :=
  promos.filter (fun info =>
    decide (info.usage_left = none) || decide (info.usage_left ≠ some 0))

/-- `sorted_active` (line 810): stable sort of the active entries, descending
by `_sort_key`. -/
def sorted_active (promos : List PromoUsageInfo) : List PromoUsageInfo :=
  List.insertionSort sortDescR (activePromos promos)

/-- The members of one discount group (`grouped[key]`, lines 812-814): the
entries of the (already sorted) list with the given `discount_percent`. -/
def group_items (l : List PromoUsageInfo) (k : Option Int) : List PromoUsageInfo :=
  l.filter (fun i => decide (i.discount_percent = k))

/-- `ordered_keys` (lines 816-818): the distinct non-`None` discount values
sorted descending, then `None` appended when present. -/
def ordered_keys (l : List PromoUsageInfo) : List (Option Int) :=
  (List.insertionSort (fun a b : Int => b ≤ a)
      ((l.filterMap (fun i => i.discount_percent)).dedup)).map some
    ++ (if none ∈ l.map (fun i => i.discount_percent) then [none] else [])

/-- One entry of `summary_totals` (lines 838-855): the group key, its code
count, the sum of its known usage values, and its count of unknown-usage
entries. -/
def group_summary (l : List PromoUsageInfo) (k : Option Int) :
    Option Int × Nat × Int × Nat :=
  let items := group_items l k
  (k, items.length, (items.filterMap (fun i => i.usage_left)).sum,
   (items.filter (fun i => decide (i.usage_left = none))).length)

/-- `summary_totals` over the grouped report: one summary per key of
`ordered_keys`, skipping empty groups (the `continue` at line 835-836). -/
def summary_totals (l : List PromoUsageInfo) : List (Option Int × Nat × Int × Nat) :=
  (ordered_keys l).filterMap (fun k =>
    if (group_items l k).isEmpty then none else some (group_summary l k))

/-- `total_codes` (line 858): grand total of code counts over all groups. -/
def total_codes (l : List PromoUsageInfo) : Nat :=
  ((summary_totals l).map (fun e => e.2.1)).sum

/-- `total_known_usage` (line 857): grand total of known usage over all groups. -/
def total_known_usage (l : List PromoUsageInfo) : Int :=
  ((summary_totals l).map (fun e => e.2.2.1)).sum

/-- `total_unknown` (line 859): grand total of unknown-usage entries. -/
def total_unknown (l : List PromoUsageInfo) : Nat :=
  ((summary_totals l).map (fun e => e.2.2.2)).sum

/-- Group-ordering relation of the report: a group precedes another when its
discount is larger, and every concrete discount precedes the unknown group. -/
def discountAfter (a b : Option Int) : Prop :=
  match a, b with
  | some x, some y => y < x
  | some _, none => True
  | none, _ => False

/-- A callback event without its raised flag (the only component the supplied
callback can influence). -/
def eraseRaised (e : CbEvent) : Nat × Nat × String := (e.issuedCount, e.pending, e.lastUrl)

/-- Two crawl states that agree on everything a caller can observe except the
raised flags of the callback trace. -/
def StatesAgree (s1 s2 : CrawlState) : Prop :=
  s1.queue = s2.queue ∧ s1.visited = s2.visited ∧ s1.results = s2.results ∧
  s1.requestCount = s2.requestCount ∧ s1.issued = s2.issued ∧
  s1.cbTrace.map eraseRaised = s2.cbTrace.map eraseRaised

/-! ## Concrete fixtures for witnesses and counterexamples -/

/-- Fixture record with usage 5 and code B. -/
def infoB : PromoUsageInfo := ⟨some "B", some 5, "uB", none⟩

/-- Fixture record with usage 0 and code C (filtered out as exhausted). -/
def infoC : PromoUsageInfo := ⟨some "C", some 0, "uC", none⟩

/-- Fixture record with unknown usage and code A. -/
def infoA : PromoUsageInfo := ⟨some "A", none, "uA", none⟩

/-- Fixture record with usage 5 and code B2. -/
def infoB2 : PromoUsageInfo := ⟨some "B2", some 5, "uB2", none⟩

/-- The spec's sorting example: usages `[5, 0, None, 5]`, codes `[B, C, A, B2]`. -/
def exModel : List PromoUsageInfo := [infoB, infoC, infoA, infoB2]

/-- Fixture for the grouping example: discount 50, usage 3. -/
def exGroup50a : PromoUsageInfo := ⟨some "X", some 3, "u1", some 50⟩

/-- Fixture for the grouping example: discount 50, usage 2. -/
def exGroup50b : PromoUsageInfo := ⟨some "Y", some 2, "u2", some 50⟩

/-- Fixture for the grouping example: unknown discount, usage 1. -/
def exGroupNone : PromoUsageInfo := ⟨some "Z", some 1, "u3", none⟩

/-- The spec's grouping example list. -/
def exGrouping : List PromoUsageInfo := [exGroup50a, exGroup50b, exGroupNone]

/-- Fetch oracle where every request fails. -/
def fetchAllFail : CrawlTask → Option ExtractResult := fun _ => none

/-- Fetch oracle where every request succeeds with an empty page. -/
def fetchEmptyPage : CrawlTask → Option ExtractResult := fun t => some ⟨t.url, [], []⟩

/-- Fetch oracle where every page carries one promo detail link. -/
def fetchOneLink : CrawlTask → Option ExtractResult :=
  fun t => some ⟨t.url, [("https://myrace.info/promo/view/5", some "C", some 10)], []⟩

/-- One seeded GET task. -/
def seedOne : List (String × String × List (String × String)) := [("GET", "u", [])]

/-- Two seeded GET tasks with distinct URLs. -/
def seedTwo : List (String × String × List (String × String)) :=
  [("GET", "u1", []), ("GET", "u2", [])]

/-- A progress callback that never raises. -/
def cbQuiet : Nat → Nat → String → Bool := fun _ _ _ => false

/-- A progress callback that raises on every invocation. -/
def cbLoud : Nat → Nat → String → Bool := fun _ _ _ => true

/-! ## General lemmas about the string order -/

theorem strLtB_cons_iff (a b : Char) (as bs : List Char) :
    strLtB (a :: as) (b :: bs) = true ↔ a < b ∨ (a = b ∧ strLtB as bs = true) := by
  simp only [strLtB]
  by_cases h1 : a < b
  · simp [h1]
  · by_cases h2 : b < a
    · simp [h1, h2, ne_of_gt h2]
    · have hab : a = b := le_antisymm (not_lt.mp h2) (not_lt.mp h1)
      simp [h1, h2, hab]

theorem strLtB_irrefl : ∀ as, strLtB as as = false
  | [] => rfl
  | a :: as => by simp [strLtB_cons_iff, strLtB_irrefl as, lt_irrefl, ← Bool.not_eq_true]

theorem strLtB_trans : ∀ as bs cs, strLtB as bs = true → strLtB bs cs = true →
    strLtB as cs = true := by
  intro as
  induction as with
  | nil =>
    intro bs cs h1 h2
    cases bs with
    | nil => simp [strLtB] at h1
    | cons b bs =>
      cases cs with
      | nil => simp [strLtB] at h2
      | cons c cs => simp [strLtB]
  | cons a as ih =>
    intro bs cs h1 h2
    cases bs with
    | nil => simp [strLtB] at h1
    | cons b bs =>
      cases cs with
      | nil => simp [strLtB] at h2
      | cons c cs =>
        rw [strLtB_cons_iff] at h1 h2 ⊢
        rcases h1 with hab | ⟨hab, hrec1⟩
        · rcases h2 with hbc | ⟨hbc, _⟩
          · exact Or.inl (lt_trans hab hbc)
          · exact Or.inl (hbc ▸ hab)
        · rcases h2 with hbc | ⟨hbc, hrec2⟩
          · exact Or.inl (hab ▸ hbc)
          · exact Or.inr ⟨hab.trans hbc, ih bs cs hrec1 hrec2⟩

theorem strLtB_eq_of_not_lt : ∀ as bs, strLtB as bs = false → strLtB bs as = false →
    as = bs := by
  intro as
  induction as with
  | nil =>
    intro bs h1 _
    cases bs with
    | nil => rfl
    | cons b bs => simp [strLtB] at h1
  | cons a as ih =>
    intro bs h1 h2
    cases bs with
    | nil => simp [strLtB] at h2
    | cons b bs =>
      rw [Bool.eq_false_iff, Ne, strLtB_cons_iff] at h1 h2
      push_neg at h1 h2
      have hab : a = b := le_antisymm h2.1 h1.1
      subst hab
      rw [ih bs (Bool.eq_false_iff.mpr (h1.2 rfl)) (Bool.eq_false_iff.mpr (h2.2 rfl))]

theorem pyStrLe_total (s t : String) : pyStrLe s t ∨ pyStrLe t s := by
  unfold pyStrLe
  by_cases h : strLtB t.toList s.toList = false
  · exact Or.inl h
  · refine Or.inr ?_
    rw [Bool.not_eq_false] at h
    by_contra h2
    rw [Bool.not_eq_false] at h2
    have := strLtB_trans _ _ _ h h2
    rw [strLtB_irrefl] at this
    exact Bool.false_ne_true this

theorem string_toList_inj {s t : String} (h : s.toList = t.toList) : s = t :=
  congrArg String.mk h

theorem pyStrLe_antisymm {s t : String} (h1 : pyStrLe s t) (h2 : pyStrLe t s) : s = t :=
  string_toList_inj (strLtB_eq_of_not_lt _ _ h2 h1)

theorem pyStrLe_trans {s t u : String} (h1 : pyStrLe s t) (h2 : pyStrLe t u) :
    pyStrLe s u := by
  unfold pyStrLe at h1 h2 ⊢
  by_contra h
  rw [Bool.not_eq_false] at h
  by_cases hst : strLtB s.toList t.toList = true
  · have hut := strLtB_trans u.toList s.toList t.toList h hst
    rw [h2] at hut
    exact Bool.false_ne_true hut
  · rw [Bool.not_eq_true] at hst
    have heq := strLtB_eq_of_not_lt s.toList t.toList hst h1
    rw [heq, h2] at h
    exact Bool.false_ne_true h

theorem pyStrLt_asymm {s t : String} (h : pyStrLt s t) : ¬ pyStrLt t s := by
  intro h2
  have hss := strLtB_trans s.toList t.toList s.toList h h2
  rw [strLtB_irrefl] at hss
  exact Bool.false_ne_true hss

theorem pyStr_eq_of_not_lt {s t : String} (h1 : ¬ pyStrLt s t) (h2 : ¬ pyStrLt t s) :
    s = t := by
  unfold pyStrLt at h1 h2
  rw [Bool.not_eq_true] at h1 h2
  exact string_toList_inj (strLtB_eq_of_not_lt s.toList t.toList h1 h2)

theorem pyStrLt_trans {s t u : String} (h1 : pyStrLt s t) (h2 : pyStrLt t u) :
    pyStrLt s u :=
  strLtB_trans s.toList t.toList u.toList h1 h2

instance : IsTrans (String × String) pairLe := by
  constructor
  intro a b c hab hbc
  rcases hab with h1 | ⟨h1, h1v⟩
  · rcases hbc with h2 | ⟨h2, _⟩
    · exact Or.inl (pyStrLt_trans h1 h2)
    · exact Or.inl (h2 ▸ h1)
  · rcases hbc with h2 | ⟨h2, h2v⟩
    · exact Or.inl (h1 ▸ h2)
    · exact Or.inr ⟨h1.trans h2, pyStrLe_trans h1v h2v⟩

instance : IsTotal (String × String) pairLe := by
  constructor
  intro a b
  by_cases h1 : pyStrLt a.1 b.1
  · exact Or.inl (Or.inl h1)
  · by_cases h2 : pyStrLt b.1 a.1
    · exact Or.inr (Or.inl h2)
    · have heq := pyStr_eq_of_not_lt h1 h2
      rcases pyStrLe_total a.2 b.2 with h | h
      · exact Or.inl (Or.inr ⟨heq, h⟩)
      · exact Or.inr (Or.inr ⟨heq.symm, h⟩)

instance : IsAntisymm (String × String) pairLe := by
  constructor
  intro a b hab hba
  rcases hab with h1 | ⟨h1, h1v⟩
  · rcases hba with h2 | ⟨h2, _⟩
    · exact absurd h2 (pyStrLt_asymm h1)
    · rw [h2] at h1
      have := strLtB_irrefl a.1.toList
      rw [pyStrLt, this] at h1
      exact absurd h1 Bool.false_ne_true
  · rcases hba with h2 | ⟨h2, h2v⟩
    · rw [h1] at h2
      have := strLtB_irrefl b.1.toList
      rw [pyStrLt, this] at h2
      exact absurd h2 Bool.false_ne_true
    · exact Prod.ext h1 (pyStrLe_antisymm h1v h2v)

/-- Canonicalization is order-independent: permuted payload dicts normalize to
the same tuple. -/
theorem normalize_data_perm {d1 d2 : List (String × String)} (h : d1.Perm d2) :
    normalize_data d1 = normalize_data d2 := by
  unfold normalize_data
  have hlen : d1.length = d2.length := h.length_eq
  by_cases he : d1.isEmpty
  · have he2 : d2.isEmpty = true := by
      rw [List.isEmpty_iff_length_eq_zero] at he ⊢
      omega
    rw [he, he2]
    simp
  · have he2 : d2.isEmpty = false := by
      rw [Bool.eq_false_iff]
      intro hc
      rw [List.isEmpty_iff_length_eq_zero] at hc
      apply he
      rw [List.isEmpty_iff_length_eq_zero]
      omega
    rw [Bool.eq_false_iff.mpr he, he2]
    simp only [Bool.false_eq_true, if_false]
    congr 1
    exact List.eq_of_perm_of_sorted
      (((List.perm_insertionSort pairLe d1).trans h).trans
        (List.perm_insertionSort pairLe d2).symm)
      (List.sorted_insertionSort pairLe d1) (List.sorted_insertionSort pairLe d2)

/-! ## Invariants of the fetch loop -/

theorem crawlStep_count_le (fetch : CrawlTask → Option ExtractResult) (raceId : String)
    (cb : Option (Nat → Nat → String → Bool)) :
    ∀ (b : Nat) (st : CrawlState),
      (crawlStep fetch raceId cb b st).requestCount ≤ st.requestCount + b := by
  intro b
  induction b with
  | zero => intro st; simp [crawlStep]
  | succ b ih =>
    intro st
    rw [crawlStep]
    cases hdv : dropVisited st.visited st.queue with
    | nil => simp
    | cons t rest =>
      cases hf : fetch t with
      | none =>
        simp only [hf]
        exact le_trans (ih _) (by simp; omega)
      | some res =>
        simp only [hf]
        exact le_trans (ih _) (by simp; omega)

theorem crawlStep_issued_le (fetch : CrawlTask → Option ExtractResult) (raceId : String)
    (cb : Option (Nat → Nat → String → Bool)) :
    ∀ (b : Nat) (st : CrawlState),
      (crawlStep fetch raceId cb b st).issued.length ≤ st.issued.length + b := by
  intro b
  induction b with
  | zero => intro st; simp [crawlStep]
  | succ b ih =>
    intro st
    rw [crawlStep]
    cases hdv : dropVisited st.visited st.queue with
    | nil => simp
    | cons t rest =>
      cases hf : fetch t with
      | none =>
        simp only [hf]
        exact le_trans (ih _) (by simp; omega)
      | some res =>
        simp only [hf]
        exact le_trans (ih _) (by simp; omega)

theorem dropVisited_head_not_mem {v : List CrawlTask} :
    ∀ {q t rest}, dropVisited v q = t :: rest → t ∉ v := by
  intro q
  induction q with
  | nil => intro t rest h; simp [dropVisited] at h
  | cons a q ih =>
    intro t rest h
    by_cases ha : a ∈ v
    · rw [dropVisited, if_pos ha] at h
      exact ih h
    · rw [dropVisited, if_neg ha] at h
      injection h with h1 _
      subst h1
      exact ha

theorem crawlStep_issued_nodup (fetch : CrawlTask → Option ExtractResult)
    (raceId : String) (cb : Option (Nat → Nat → String → Bool)) :
    ∀ (b : Nat) (st : CrawlState), st.issued.Nodup →
      (∀ x : CrawlTask, x ∈ st.issued ↔ x ∈ st.visited) →
      (crawlStep fetch raceId cb b st).issued.Nodup ∧
      (∀ x : CrawlTask, x ∈ (crawlStep fetch raceId cb b st).issued ↔
        x ∈ (crawlStep fetch raceId cb b st).visited) := by
  intro b
  induction b with
  | zero =>
    intro st h1 h2
    rw [crawlStep]
    exact ⟨h1, h2⟩
  | succ b ih =>
    intro st h1 h2
    rw [crawlStep]
    cases hdv : dropVisited st.visited st.queue with
    | nil => exact ⟨h1, h2⟩
    | cons t rest =>
      have htv : t ∉ st.visited := dropVisited_head_not_mem hdv
      have hti : t ∉ st.issued := fun hx => htv ((h2 t).mp hx)
      have hnodup : (st.issued ++ [t]).Nodup := by
        rw [List.nodup_append]
        exact ⟨h1, List.nodup_singleton t,
          fun a ha hb => hti ((List.mem_singleton.mp hb) ▸ ha)⟩
      have hiff : ∀ x : CrawlTask, x ∈ st.issued ++ [t] ↔ x ∈ t :: st.visited := by
        intro x
        rw [List.mem_append, List.mem_singleton, List.mem_cons, h2 x]
        tauto
      cases hf : fetch t with
      | none =>
        simp only [hf]
        exact ih _ hnodup hiff
      | some res =>
        simp only [hf]
        exact ih _ hnodup hiff

theorem lookup_none_not_mem {β : Type} (k : String) :
    ∀ (l : List (String × β)), l.lookup k = none → ∀ e ∈ l, e.1 ≠ k := by
  intro l
  induction l with
  | nil => intro _ e he; cases he
  | cons a l ih =>
    intro h e he
    obtain ⟨k2, v⟩ := a
    rw [List.lookup] at h
    cases hbeq : k == k2 with
    | true => rw [hbeq] at h; cases h
    | false =>
      rw [hbeq] at h
      rcases List.mem_cons.mp he with rfl | hm
      · intro hq
        simp only at hq
        rw [hq] at hbeq
        simp at hbeq
      · exact ih h e hm

theorem mergeFound_keys_nodup (raceId : String)
    (acc : List (String × Option String × Option Int))
    (item : String × Option String × Option Int)
    (h : (acc.map Prod.fst).Nodup) :
    ((mergeFound raceId acc item).map Prod.fst).Nodup := by
  unfold mergeFound
  by_cases hskip :
      (!(strContains item.1 ("/races/" ++ raceId)) && !(strContains item.1 "/promo/view/"))
        = true
  · rw [if_pos hskip]
    exact h
  · rw [if_neg hskip]
    cases hl : acc.lookup item.1 with
    | none =>
      rw [List.map_append]
      rw [List.nodup_append]
      refine ⟨h, by simp, fun a ha hb => ?_⟩
      rw [List.mem_map] at ha
      obtain ⟨e, he, rfl⟩ := ha
      simp only [List.map_cons, List.map_nil, List.mem_singleton] at hb
      exact lookup_none_not_mem item.1 acc hl e he hb
    | some prev =>
      have hkeys :
          ((acc.map (fun e => if e.1 = item.1 then (item.1, merge_promo_meta prev item.2)
              else e)).map Prod.fst) = acc.map Prod.fst := by
        rw [List.map_map]
        apply List.map_congr_left
        intro e _
        by_cases hk : e.1 = item.1
        · simp [hk]
        · simp [hk]
      rw [hkeys]
      exact h

theorem foldl_mergeFound_keys_nodup (raceId : String)
    (found : List (String × Option String × Option Int)) :
    ∀ acc, (acc.map Prod.fst).Nodup →
      ((found.foldl (mergeFound raceId) acc).map Prod.fst).Nodup := by
  induction found with
  | nil => intro acc h; exact h
  | cons it found ih =>
    intro acc h
    exact ih _ (mergeFound_keys_nodup raceId acc it h)

theorem crawlStep_results_nodup (fetch : CrawlTask → Option ExtractResult)
    (raceId : String) (cb : Option (Nat → Nat → String → Bool)) :
    ∀ (b : Nat) (st : CrawlState), (st.results.map Prod.fst).Nodup →
      ((crawlStep fetch raceId cb b st).results.map Prod.fst).Nodup := by
  intro b
  induction b with
  | zero => intro st h; rw [crawlStep]; exact h
  | succ b ih =>
    intro st h
    rw [crawlStep]
    cases hdv : dropVisited st.visited st.queue with
    | nil => exact h
    | cons t rest =>
      cases hf : fetch t with
      | none =>
        simp only [hf]
        exact ih _ h
      | some res =>
        simp only [hf]
        exact ih _ (foldl_mergeFound_keys_nodup raceId res.found st.results h)

theorem crawlStep_trace_one_per_success (fetch : CrawlTask → Option ExtractResult)
    (raceId : String) (f : Nat → Nat → String → Bool) :
    ∀ (b : Nat) (st : CrawlState),
      st.cbTrace.length = st.issued.countP (fun t => (fetch t).isSome) →
      (crawlStep fetch raceId (some f) b st).cbTrace.length
        = (crawlStep fetch raceId (some f) b st).issued.countP
            (fun t => (fetch t).isSome) := by
  intro b
  induction b with
  | zero => intro st h; rw [crawlStep]; exact h
  | succ b ih =>
    intro st h
    rw [crawlStep]
    cases hdv : dropVisited st.visited st.queue with
    | nil => exact h
    | cons t rest =>
      cases hf : fetch t with
      | none =>
        simp only [hf]
        apply ih
        simp only [List.countP_append, List.countP_cons, List.countP_nil, hf]
        simp [h]
      | some res =>
        simp only [hf]
        apply ih
        simp only [List.length_append, List.countP_append, List.countP_cons,
          List.countP_nil, hf, List.length_cons, List.length_nil]
        simp [h]

theorem crawlStep_agree (fetch : CrawlTask → Option ExtractResult) (raceId : String)
    (f1 f2 : Nat → Nat → String → Bool) :
    ∀ (b : Nat) (st1 st2 : CrawlState), StatesAgree st1 st2 →
      StatesAgree (crawlStep fetch raceId (some f1) b st1)
        (crawlStep fetch raceId (some f2) b st2) := by
  intro b
  induction b with
  | zero =>
    intro st1 st2 h
    rw [crawlStep, crawlStep]
    exact h
  | succ b ih =>
    intro st1 st2 h
    obtain ⟨hq, hv, hr, hc, hi, ht⟩ := h
    rw [crawlStep, crawlStep, ← hq, ← hv]
    cases hdv : dropVisited st1.visited st1.queue with
    | nil => exact ⟨rfl, rfl, hr, hc, hi, ht⟩
    | cons t rest =>
      cases hf : fetch t with
      | none =>
        simp only [hf]
        exact ih _ _ ⟨rfl, rfl, hr, by rw [hc], by rw [hi], ht⟩
      | some res =>
        simp only [hf]
        refine ih _ _ ⟨rfl, rfl, by rw [hr], by rw [hc], by rw [hi], ?_⟩
        simp only [List.map_append, ht, List.map_cons, List.map_nil, eraseRaised, hc]

theorem collect_wrapper_fields (fetch : CrawlTask → Option ExtractResult)
    (raceId : String) (cb : Option (Nat → Nat → String → Bool))
    (initTasks : List (String × String × List (String × String))) :
    (collect_promo_view_links fetch raceId cb initTasks).results
        = (collect_links_state fetch raceId cb initTasks).results ∧
    (collect_promo_view_links fetch raceId cb initTasks).issued
        = (collect_links_state fetch raceId cb initTasks).issued ∧
    (collect_promo_view_links fetch raceId cb initTasks).requestCount
        = (collect_links_state fetch raceId cb initTasks).requestCount ∧
    (collect_promo_view_links fetch raceId cb initTasks).queue
        = (collect_links_state fetch raceId cb initTasks).queue := by
  cases cb with
  | none => exact ⟨rfl, rfl, rfl, rfl⟩
  | some f => exact ⟨rfl, rfl, rfl, rfl⟩

/-! ## Claim theorems -/

/-- C2: for every crawl run (any fetch oracle, race id, optional callback and
seeded task list), the number of HTTP requests issued during the discovery
phase — the length of the issued-request trace, which equals the loop's
`request_count` — never exceeds `max(80, 2 * number of initially seeded
tasks)`, no matter how many tasks the pages mined mid-crawl enqueue. -/
theorem crawl_request_budget (fetch : CrawlTask → Option ExtractResult) (raceId : String)
    (cb : Option (Nat → Nat → String → Bool))
    (initTasks : List (String × String × List (String × String))) :
    (collect_promo_view_links fetch raceId cb initTasks).issued.length
        ≤ max 80 (2 * initTasks.length) ∧
    (collect_promo_view_links fetch raceId cb initTasks).requestCount
        ≤ max 80 (2 * initTasks.length) := by
  obtain ⟨-, hi, hc, -⟩ := collect_wrapper_fields fetch raceId cb initTasks
  rw [hi, hc]
  have hEq : (initTasks.map (fun nt => mkTask nt.1 nt.2.1 nt.2.2)).length
      = initTasks.length := List.length_map _ _
  constructor
  · calc (collect_links_state fetch raceId cb initTasks).issued.length
        ≤ ([] : List CrawlTask).length
            + max 80 (2 * (initTasks.map (fun nt => mkTask nt.1 nt.2.1 nt.2.2)).length) :=
          crawlStep_issued_le fetch raceId cb _ _
      _ = max 80 (2 * initTasks.length) := by rw [hEq]; simp
  · calc (collect_links_state fetch raceId cb initTasks).requestCount
        ≤ 0 + max 80 (2 * (initTasks.map (fun nt => mkTask nt.1 nt.2.1 nt.2.2)).length) :=
          crawlStep_count_le fetch raceId cb _ _
      _ = max 80 (2 * initTasks.length) := by rw [hEq]; simp

/-- C3: in every crawl run the issued-request trace contains no duplicate task
identity (method, URL, canonical payload) — a task is issued at most once even
when enqueued many times — and payload canonicalization is order-independent:
permuted payload dictionaries normalize to the same canonical tuple. -/
theorem visited_set_idempotent (fetch : CrawlTask → Option ExtractResult)
    (raceId : String) (cb : Option (Nat → Nat → String → Bool))
    (initTasks : List (String × String × List (String × String))) :
    (collect_promo_view_links fetch raceId cb initTasks).issued.Nodup ∧
    (∀ d1 d2 : List (String × String), d1.Perm d2 →
      normalize_data d1 = normalize_data d2) := by
  refine ⟨?_, fun d1 d2 h => normalize_data_perm h⟩
  obtain ⟨-, hi, -, -⟩ := collect_wrapper_fields fetch raceId cb initTasks
  rw [hi]
  exact (crawlStep_issued_nodup fetch raceId cb _ _ List.nodup_nil (by simp)).1

/-- C3 witness: a concrete crawl has a duplicate-free issued trace, and two
permuted payload dictionaries canonicalize identically. -/
theorem visited_set_idempotent_witness :
    (collect_promo_view_links fetchEmptyPage "1" (some cbQuiet) seedTwo).issued.Nodup ∧
    normalize_data [("b", "2"), ("a", "1")] = normalize_data [("a", "1"), ("b", "2")] :=
  ⟨(visited_set_idempotent fetchEmptyPage "1" (some cbQuiet) seedTwo).1,
   (visited_set_idempotent fetchEmptyPage "1" (some cbQuiet) seedTwo).2
     [("b", "2"), ("a", "1")] [("a", "1"), ("b", "2")] (by decide)⟩

/-- C10: an exception raised by any progress-callback invocation (loop or
final) is caught and ignored — the crawl with an arbitrarily raising callback
returns exactly the same discovered-link list, issues the same requests, and
produces the same callback-invocation arguments as the crawl with a callback
that never raises (the crawl is a total function, so it terminates normally
either way). -/
theorem collect_links_state_agree (fetch : CrawlTask → Option ExtractResult)
    (raceId : String) (initTasks : List (String × String × List (String × String)))
    (f1 f2 : Nat → Nat → String → Bool) :
    StatesAgree (collect_links_state fetch raceId (some f1) initTasks)
      (collect_links_state fetch raceId (some f2) initTasks) := by
  apply crawlStep_agree
  exact ⟨rfl, rfl, rfl, rfl, rfl, rfl⟩

theorem callback_exceptions_ignored (fetch : CrawlTask → Option ExtractResult)
    (raceId : String) (initTasks : List (String × String × List (String × String)))
    (f : Nat → Nat → String → Bool) :
    (collect_promo_view_links fetch raceId (some f) initTasks).results
        = (collect_promo_view_links fetch raceId (some cbQuiet) initTasks).results ∧
    (collect_promo_view_links fetch raceId (some f) initTasks).issued
        = (collect_promo_view_links fetch raceId (some cbQuiet) initTasks).issued ∧
    (collect_promo_view_links fetch raceId (some f) initTasks).cbTrace.map eraseRaised
        = (collect_promo_view_links fetch raceId (some cbQuiet) initTasks).cbTrace.map
            eraseRaised := by
  obtain ⟨hq, hv, hr, hc, hi, ht⟩ := collect_links_state_agree fetch raceId initTasks f cbQuiet
  refine ⟨?_, ?_, ?_⟩
  · simpa only [collect_promo_view_links] using hr
  · simpa only [collect_promo_view_links] using hi
  · simp only [collect_promo_view_links]
    simp only [List.map_append, List.map_cons, List.map_nil, eraseRaised]
    rw [ht, hc, hq]

theorem progress_cb_filter_head (invs : List (ℚ × Nat × Nat × String)) :
    ∀ (last : ℚ) (x : ℚ × Nat × Nat × String) (rest : List (ℚ × Nat × Nat × String)),
      progress_cb_filter last invs = x :: rest → (1:ℚ)/2 ≤ x.1 - last := by
  induction invs with
  | nil =>
    intro last x rest h
    simp [progress_cb_filter] at h
  | cons p tl ih =>
    intro last x rest h
    obtain ⟨t, args⟩ := p
    rw [progress_cb_filter] at h
    by_cases hc : t - last < 1/2
    · rw [if_pos hc] at h
      exact ih last x rest h
    · rw [if_neg hc] at h
      injection h with h1 _
      subst h1
      exact le_of_not_lt hc

theorem progress_cb_filter_chain (invs : List (ℚ × Nat × Nat × String)) :
    ∀ last : ℚ,
      List.Chain' (fun a b : ℚ × Nat × Nat × String => (1:ℚ)/2 ≤ b.1 - a.1)
        (progress_cb_filter last invs) := by
  induction invs with
  | nil => intro last; simp [progress_cb_filter]
  | cons p tl ih =>
    intro last
    obtain ⟨t, args⟩ := p
    rw [progress_cb_filter]
    by_cases hc : t - last < 1/2
    · rw [if_pos hc]
      exact ih last
    · rw [if_neg hc]
      rw [List.chain'_cons']
      refine ⟨?_, ih t⟩
      intro y hy
      cases hft : progress_cb_filter t tl with
      | nil => rw [hft] at hy; cases hy
      | cons z zs =>
        rw [hft] at hy
        simp only [List.head?_cons, Option.mem_def, Option.some.injEq] at hy
        subst hy
        exact progress_cb_filter_head tl t z zs hft

/-- C8 counterexample: the crawl itself does not rate-limit its callback.  In
the concrete run with two seeded tasks whose fetches both succeed, the loop
invokes the callback after each of the two requests; with the wall-clock
completion times `n/10` seconds (a strictly monotone timing), the two loop
invocations are 0.1 s apart, refuting "at most one invocation per 0.5 seconds
of wall-clock time". -/
theorem crawl_throttle_counterexample :
    ¬ (∀ reqTime : Nat → ℚ, StrictMono reqTime →
        List.Chain' (fun e1 e2 : CbEvent =>
            (1:ℚ)/2 ≤ reqTime e2.issuedCount - reqTime e1.issuedCount)
          (collect_links_state fetchEmptyPage "1" (some cbQuiet) seedTwo).cbTrace) := by
  intro h
  have hmono : StrictMono (fun n : Nat => (n : ℚ)/10) := by
    intro a b hab
    have hq : (a : ℚ) < b := by exact_mod_cast hab
    show (a : ℚ)/10 < (b : ℚ)/10
    linarith
  have hc := h (fun n => (n : ℚ)/10) hmono
  have htr : (collect_links_state fetchEmptyPage "1" (some cbQuiet) seedTwo).cbTrace
      = [⟨1, 1, "u1", false⟩, ⟨2, 0, "u2", false⟩] := by decide
  rw [htr] at hc
  simp only [List.chain'_cons, List.chain'_singleton, and_true] at hc
  norm_num at hc

/-- C8 as amended: the crawl invokes the callback once after every successful
request (with no rate limiting of its own) and once more at completion with an
empty `lastUrl`; the 0.5-second throttle lives in the caller-supplied callback
of `checkpromos`, which forwards an invocation only when at least 0.5 seconds
of monotonic clock have passed since the last forwarded one, so consecutive
forwarded invocations are always at least 0.5 seconds apart. -/
theorem crawl_callback_contract (fetch : CrawlTask → Option ExtractResult)
    (raceId : String) (initTasks : List (String × String × List (String × String)))
    (f : Nat → Nat → String → Bool) :
    ((collect_links_state fetch raceId (some f) initTasks).cbTrace.length
      = (collect_links_state fetch raceId (some f) initTasks).issued.countP
          (fun t => (fetch t).isSome)) ∧
    ((collect_promo_view_links fetch raceId (some f) initTasks).cbTrace
      = (collect_links_state fetch raceId (some f) initTasks).cbTrace
        ++ [⟨(collect_links_state fetch raceId (some f) initTasks).requestCount,
             (collect_links_state fetch raceId (some f) initTasks).queue.length, "",
             f (collect_links_state fetch raceId (some f) initTasks).requestCount
               (collect_links_state fetch raceId (some f) initTasks).queue.length ""⟩]) ∧
    (∀ (last : ℚ) (invs : List (ℚ × Nat × Nat × String)),
      List.Chain' (fun a b : ℚ × Nat × Nat × String => (1:ℚ)/2 ≤ b.1 - a.1)
        (progress_cb_filter last invs)) := by
  refine ⟨?_, rfl, fun last invs => progress_cb_filter_chain invs last⟩
  exact crawlStep_trace_one_per_success fetch raceId f _ _ rfl

/-- C1: if the discovery phase finds zero detail URLs, `_gather_promos_with_usage`
returns the error outcome carrying the diagnostic fetch of the primary listing
URL rather than an empty list; if at least one URL is discovered it returns a
`PromoUsageInfo` list (one record per link), and an empty list is never
returned as a success. -/
theorem zero_discovery_error (fetch : CrawlTask → Option ExtractResult)
    (raceId : String) (cb : Option (Nat → Nat → String → Bool))
    (initTasks : List (String × String × List (String × String)))
    (d : String → Option String) (ec : String → Option String)
    (eu : String → Option Int) :
    ((collect_promo_view_links fetch raceId cb initTasks).results = [] →
      gather_promos_with_usage fetch raceId cb initTasks d ec eu
        = GatherResult.err (primary_list_url raceId) (d (primary_list_url raceId))) ∧
    ((collect_promo_view_links fetch raceId cb initTasks).results ≠ [] →
      gather_promos_with_usage fetch raceId cb initTasks d ec eu
        = GatherResult.ok (detail_phase d ec eu
            (collect_promo_view_links fetch raceId cb initTasks).results) ∧
      (detail_phase d ec eu
          (collect_promo_view_links fetch raceId cb initTasks).results).length
        = (collect_promo_view_links fetch raceId cb initTasks).results.length) ∧
    (∀ ps, gather_promos_with_usage fetch raceId cb initTasks d ec eu
        = GatherResult.ok ps → ps ≠ []) := by
  refine ⟨fun h0 => ?_, fun hne => ⟨?_, List.length_map _ _⟩, fun ps hps hps0 => ?_⟩
  · simp [gather_promos_with_usage, h0]
  · have hemp : (collect_promo_view_links fetch raceId cb initTasks).results.isEmpty
        = false := by
      cases hres : (collect_promo_view_links fetch raceId cb initTasks).results with
      | nil => exact absurd hres hne
      | cons x xs => rfl
    simp [gather_promos_with_usage, hemp]
  · subst hps0
    by_cases h0 : (collect_promo_view_links fetch raceId cb initTasks).results.isEmpty
    · simp [gather_promos_with_usage, h0] at hps
    · simp only [Bool.not_eq_true] at h0
      simp only [gather_promos_with_usage, h0, Bool.false_eq_true, if_false,
        GatherResult.ok.injEq] at hps
      have hlen := congrArg List.length hps
      simp only [detail_phase, List.length_map, List.length_nil] at hlen
      rw [List.isEmpty_eq_false_iff_exists_mem] at h0
      obtain ⟨x, hx⟩ := h0
      rw [List.length_eq_zero] at hlen
      rw [hlen] at hx
      cases hx

/-- C1 witness: with a crawl that discovers nothing, the gather returns the
error carrying the diagnostic body of the primary listing URL; with a crawl
that discovers one link, it returns the detail-phase record list. -/
theorem zero_discovery_error_witness :
    (gather_promos_with_usage fetchAllFail "1" none seedOne (fun _ => some "body")
        (fun _ => none) (fun _ => none)
      = GatherResult.err (primary_list_url "1") (some "body")) ∧
    (gather_promos_with_usage fetchOneLink "1" none seedOne (fun _ => none)
        (fun _ => none) (fun _ => none)
      = GatherResult.ok (detail_phase (fun _ => none) (fun _ => none) (fun _ => none)
          (collect_promo_view_links fetchOneLink "1" none seedOne).results)) :=
  ⟨(zero_discovery_error fetchAllFail "1" none seedOne (fun _ => some "body")
      (fun _ => none) (fun _ => none)).1 (by decide),
   ((zero_discovery_error fetchOneLink "1" none seedOne (fun _ => none)
      (fun _ => none) (fun _ => none)).2.1 (by decide)).1⟩

theorem detail_phase_get (d : String → Option String) (ec : String → Option String)
    (eu : String → Option Int) (links : List (String × Option String × Option Int))
    (i : Nat) (h : i < links.length) (h2 : i < (detail_phase d ec eu links).length) :
    (detail_phase d ec eu links).get ⟨i, h2⟩
      = (fun l => match d l.1 with
          | none => (⟨l.2.1, none, l.1, none⟩ : PromoUsageInfo)
          | some html =>
            ⟨some (pyOrStr (ec html) (pyOrStr l.2.1 (extract_code_from_url l.1))),
             eu html, l.1, l.2.2⟩) (links.get ⟨i, h⟩) := by
  unfold detail_phase at h2 ⊢
  exact List.get_map _

/-- C7: every merged detail-URL list produces exactly one `PromoUsageInfo` per
URL, in discovery order (the record URLs are the link URLs, position by
position), a fetch failure still yields that URL's record, just with
`usage_left = none`, and the crawl's merged URL list contains no duplicate
URL. -/
theorem detail_one_record_per_url (fetch : CrawlTask → Option ExtractResult)
    (raceId : String) (cb : Option (Nat → Nat → String → Bool))
    (initTasks : List (String × String × List (String × String)))
    (d : String → Option String) (ec : String → Option String)
    (eu : String → Option Int) (links : List (String × Option String × Option Int)) :
    ((collect_promo_view_links fetch raceId cb initTasks).results.map Prod.fst).Nodup ∧
    (detail_phase d ec eu links).map PromoUsageInfo.url = links.map Prod.fst ∧
    (detail_phase d ec eu links).length = links.length ∧
    (∀ (i : Nat) (h : i < links.length) (h2 : i < (detail_phase d ec eu links).length),
      d (links.get ⟨i, h⟩).1 = none →
      ((detail_phase d ec eu links).get ⟨i, h2⟩).usage_left = none) := by
  refine ⟨?_, ?_, List.length_map _ _, fun i h h2 hfail => ?_⟩
  · obtain ⟨hr, -, -, -⟩ := collect_wrapper_fields fetch raceId cb initTasks
    rw [hr]
    exact crawlStep_results_nodup fetch raceId cb _ _ (by simp)
  · unfold detail_phase
    rw [List.map_map]
    apply List.map_congr_left
    intro l _
    simp only [Function.comp_apply]
    cases d l.1 <;> rfl
  · rw [detail_phase_get d ec eu links i h h2]
    simp only [hfail]

/-- C7 witness: one concrete link whose detail fetch fails still produces its
record, in place, with unknown usage. -/
theorem detail_one_record_per_url_witness :
    ((detail_phase (fun _ => none) (fun _ => none) (fun _ => none)
        [("u5", some "C", some 10)]).map PromoUsageInfo.url
      = [("u5", some "C", some 10)].map Prod.fst) ∧
    ((detail_phase (fun _ => none) (fun _ => none) (fun _ => none)
        [("u5", some "C", some 10)]).get ⟨0, by decide⟩).usage_left = none :=
  ⟨(detail_one_record_per_url fetchAllFail "1" none seedOne (fun _ => none)
      (fun _ => none) (fun _ => none) [("u5", some "C", some 10)]).2.1,
   (detail_one_record_per_url fetchAllFail "1" none seedOne (fun _ => none)
      (fun _ => none) (fun _ => none) [("u5", some "C", some 10)]).2.2.2 0
      (by decide) (by decide) rfl⟩

/-- C9: on the detail-fetch failure path the emitted record is exactly
`PromoUsageInfo(code = anchor text, usage_left = None, url, discount = None)`:
the synthetic URL-derived code fallback is not applied, and the discount
recorded at discovery time is dropped. -/
theorem detail_failure_keeps_anchor_drops_discount (d : String → Option String)
    (ec : String → Option String) (eu : String → Option Int)
    (links : List (String × Option String × Option Int)) (i : Nat)
    (h : i < links.length) (h2 : i < (detail_phase d ec eu links).length)
    (hfail : d (links.get ⟨i, h⟩).1 = none) :
    (detail_phase d ec eu links).get ⟨i, h2⟩
      = ⟨(links.get ⟨i, h⟩).2.1, none, (links.get ⟨i, h⟩).1, none⟩ := by
  rw [detail_phase_get d ec eu links i h h2]
  simp only [hfail]

/-- C9 witness: a concrete failing link with a discovery-time discount yields
the anchor-text code, no usage and no discount. -/
theorem detail_failure_witness :
    (detail_phase (fun _ => none) (fun _ => none) (fun _ => none)
        [("u5", some "C", some 10)]).get ⟨0, by decide⟩
      = ⟨some "C", none, "u5", none⟩ :=
  detail_failure_keeps_anchor_drops_discount (fun _ => none) (fun _ => none)
    (fun _ => none) [("u5", some "C", some 10)] 0 (by decide) (by decide) rfl

/-- C4: merging PromoLink discoveries for one URL is first-non-null-wins: the
spec's two concrete merge sequences evaluate as stated, and once the folded
accumulator holds a non-null (and, as produced by the extractor, non-empty)
anchor text or a non-null discount, no later discovery sequence changes it. -/
theorem merge_first_non_null_wins :
    (List.foldl merge_promo_meta (none, none) [(some "X", some 30)]
      = (some "X", some 30)) ∧
    (List.foldl merge_promo_meta (some "X", some 30) [(none, none)]
      = (some "X", some 30)) ∧
    (∀ (acc : Option String × Option Int) (ds : List (Option String × Option Int))
        (s : String), acc.1 = some s → s ≠ "" →
      (ds.foldl merge_promo_meta acc).1 = some s) ∧
    (∀ (acc : Option String × Option Int) (ds : List (Option String × Option Int))
        (n : Int), acc.2 = some n →
      (ds.foldl merge_promo_meta acc).2 = some n) := by
  refine ⟨by decide, by decide, ?_, ?_⟩
  · intro acc ds s hacc hs
    induction ds generalizing acc with
    | nil => exact hacc
    | cons dnew ds ih =>
      rw [List.foldl_cons]
      apply ih
      simp [merge_promo_meta, pyOrOpt, hacc, hs]
  · intro acc ds n hacc
    induction ds generalizing acc with
    | nil => exact hacc
    | cons dnew ds ih =>
      rw [List.foldl_cons]
      apply ih
      simp [merge_promo_meta, keepFirst, hacc]

/-- C4 witness: a stored `("X", 30)` survives a later conflicting discovery and
a later empty discovery untouched. -/
theorem merge_first_non_null_wins_witness :
    ((List.foldl merge_promo_meta (some "X", some 30)
        [(some "Y", some 40), (none, none)]).1 = some "X") ∧
    ((List.foldl merge_promo_meta (some "X", some 30)
        [(some "Y", some 40), (none, none)]).2 = some 30) :=
  ⟨merge_first_non_null_wins.2.2.1 (some "X", some 30)
      [(some "Y", some 40), (none, none)] "X" rfl (by decide),
   merge_first_non_null_wins.2.2.2 (some "X", some 30)
      [(some "Y", some 40), (none, none)] 30 rfl⟩

theorem sortKeyLe_trans {a b c : Int × String} (h1 : sortKeyLe a b)
    (h2 : sortKeyLe b c) : sortKeyLe a c := by
  rcases h1 with h1 | ⟨h1, h1s⟩
  · rcases h2 with h2 | ⟨h2, _⟩
    · exact Or.inl (lt_trans h1 h2)
    · exact Or.inl (h2 ▸ h1)
  · rcases h2 with h2 | ⟨h2, h2s⟩
    · exact Or.inl (h1 ▸ h2)
    · exact Or.inr ⟨h1.trans h2, pyStrLe_trans h1s h2s⟩

theorem sortKeyLe_total (a b : Int × String) : sortKeyLe a b ∨ sortKeyLe b a := by
  rcases lt_trichotomy a.1 b.1 with h | h | h
  · exact Or.inl (Or.inl h)
  · rcases pyStrLe_total a.2 b.2 with hs | hs
    · exact Or.inl (Or.inr ⟨h, hs⟩)
    · exact Or.inr (Or.inr ⟨h.symm, hs⟩)
  · exact Or.inr (Or.inl h)

instance : IsTrans PromoUsageInfo sortDescR :=
  ⟨fun _ _ _ h1 h2 => sortKeyLe_trans h2 h1⟩

instance : IsTotal PromoUsageInfo sortDescR :=
  ⟨fun x y => sortKeyLe_total (sort_key y) (sort_key x)⟩

/-- C5 counterexample: on the spec's own example (usages `[5, 0, None, 5]`,
codes `[B, C, A, B2]`) the report pipeline yields the order `B2, B, A` — the
tie between the usage-5 entries is broken descending by code text, not
ascending, so the claimed order `B, B2, A` is not produced. -/
theorem report_sort_counterexample :
    ((sorted_active exModel).map code_text = ["B2", "B", "A"]) ∧
    ((sorted_active exModel).map code_text ≠ ["B", "B2", "A"]) :=
  ⟨by decide, by decide⟩

/-- C5 as amended: the filter removes exactly the entries with `usage_left = 0`
(`None` kept), and the remainder is a permutation sorted descending by the key
`(usage with unknown as -1, code lowercased)` — so unknown-usage entries come
last, but among equal usage values codes are ordered descending
case-insensitively, and the example with usages `[5, 0, None, 5]` and codes
`[B, C, A, B2]` yields `B2, B, A`. -/
theorem report_filter_sort (promos : List PromoUsageInfo) :
    (∀ info, info ∈ activePromos promos ↔ info ∈ promos ∧ info.usage_left ≠ some 0) ∧
    (sorted_active promos).Perm (activePromos promos) ∧
    List.Sorted sortDescR (sorted_active promos) ∧
    sorted_active exModel = [infoB2, infoB, infoA] := by
  refine ⟨?_, List.perm_insertionSort _ _, List.sorted_insertionSort _ _, by decide⟩
  intro info
  simp only [activePromos, List.mem_filter, Bool.or_eq_true, decide_eq_true_eq]
  constructor
  · rintro ⟨hm, h | h⟩
    · exact ⟨hm, by simp [h]⟩
    · exact ⟨hm, h⟩
  · rintro ⟨hm, h⟩
    exact ⟨hm, Or.inr h⟩

theorem list_sum_map_add {α M : Type} [AddCommMonoid M] (l : List α) (f g : α → M) :
    (l.map (fun x => f x + g x)).sum = (l.map f).sum + (l.map g).sum := by
  induction l with
  | nil => simp
  | cons a l ih =>
    simp only [List.map_cons, List.sum_cons, ih]
    abel

theorem list_sum_indicator {M : Type} [AddCommMonoid M] (keys : List (Option Int))
    (dv : Option Int) (v : M) (hnd : keys.Nodup) (hd : dv ∈ keys) :
    (keys.map (fun k => if dv = k then v else 0)).sum = v := by
  induction keys with
  | nil => cases hd
  | cons k ks ih =>
    rw [List.nodup_cons] at hnd
    rcases List.mem_cons.mp hd with rfl | hm
    · simp only [List.map_cons, List.sum_cons, if_pos rfl]
      have hz : ∀ x ∈ ks.map (fun k => if dv = k then v else 0), x = 0 := by
        intro x hx
        rcases List.mem_map.mp hx with ⟨k2, hk2, rfl⟩
        have hne : dv ≠ k2 := fun he => hnd.1 (he ▸ hk2)
        simp [hne]
      rw [List.sum_eq_zero hz, add_zero]
      simp
    · have hne : dv ≠ k := fun he => hnd.1 (he ▸ hm)
      simp only [List.map_cons, List.sum_cons, if_neg hne, ih hnd.2 hm, zero_add]

theorem group_items_cons (i : PromoUsageInfo) (l : List PromoUsageInfo)
    (k : Option Int) :
    group_items (i :: l) k
      = if i.discount_percent = k then i :: group_items l k else group_items l k := by
  simp only [group_items, List.filter_cons]
  by_cases h : i.discount_percent = k
  · simp [h]
  · simp [h]

theorem sum_over_groups {M : Type} [AddCommMonoid M] (keys : List (Option Int))
    (hnd : keys.Nodup) (f : PromoUsageInfo → M) :
    ∀ l : List PromoUsageInfo, (∀ i ∈ l, i.discount_percent ∈ keys) →
      (keys.map (fun k => ((group_items l k).map f).sum)).sum = (l.map f).sum := by
  intro l
  induction l with
  | nil => intro _; simp [group_items]
  | cons i l ih =>
    intro hcov
    have him : i.discount_percent ∈ keys := hcov i (List.mem_cons_self i l)
    have hcov2 : ∀ j ∈ l, j.discount_percent ∈ keys :=
      fun j hj => hcov j (List.mem_cons_of_mem i hj)
    have hstep : keys.map (fun k => ((group_items (i :: l) k).map f).sum)
        = keys.map (fun k => (if i.discount_percent = k then f i else 0)
            + ((group_items l k).map f).sum) := by
      apply List.map_congr_left
      intro k _
      rw [group_items_cons]
      by_cases h : i.discount_percent = k
      · simp [h]
      · simp [h]
    rw [hstep, list_sum_map_add, list_sum_indicator keys _ _ hnd him, ih hcov2,
      List.map_cons, List.sum_cons]

theorem filterMap_if_eq_map {α β : Type} (p : α → Bool) (f : α → β) (keys : List α)
    (h : ∀ k ∈ keys, p k = false) :
    keys.filterMap (fun k => if p k then none else some (f k)) = keys.map f := by
  induction keys with
  | nil => rfl
  | cons k ks ih =>
    have hk := h k (List.mem_cons_self k ks)
    rw [List.filterMap_cons, List.map_cons]
    rw [hk]
    simp only [Bool.false_eq_true, if_false]
    rw [ih (fun k2 hk2 => h k2 (List.mem_cons_of_mem k hk2))]

theorem map_const_one_sum (xs : List PromoUsageInfo) :
    (xs.map (fun _ => (1 : Nat))).sum = xs.length := by
  induction xs with
  | nil => rfl
  | cons x xs ih => simp [ih, Nat.add_comm]

theorem filterMap_usage_sum (xs : List PromoUsageInfo) :
    (xs.filterMap (fun i => i.usage_left)).sum
      = (xs.map (fun i => (i.usage_left).getD 0)).sum := by
  induction xs with
  | nil => rfl
  | cons x xs ih =>
    rw [List.filterMap_cons, List.map_cons, List.sum_cons]
    cases hx : x.usage_left with
    | none => simp [ih]
    | some v => simp [List.sum_cons, ih]

theorem ordered_keys_mem (l : List PromoUsageInfo) (k : Option Int) :
    k ∈ ordered_keys l ↔ ∃ i ∈ l, i.discount_percent = k := by
  unfold ordered_keys
  rw [List.mem_append]
  cases k with
  | none =>
    constructor
    · rintro (h | h)
      · rcases List.mem_map.mp h with ⟨d, _, hc⟩
        cases hc
      · by_cases hmem : none ∈ l.map (fun i => i.discount_percent)
        · rcases List.mem_map.mp hmem with ⟨i, hi, hd⟩
          exact ⟨i, hi, hd⟩
        · rw [if_neg hmem] at h
          cases h
    · rintro ⟨i, hi, hd⟩
      right
      have hmem : none ∈ l.map (fun i => i.discount_percent) :=
        List.mem_map.mpr ⟨i, hi, hd⟩
      rw [if_pos hmem]
      exact List.mem_singleton.mpr rfl
  | some dv =>
    constructor
    · rintro (h | h)
      · rcases List.mem_map.mp h with ⟨d, hd, hc⟩
        injection hc with hc
        subst hc
        rw [(List.perm_insertionSort _ _).mem_iff, List.mem_dedup] at hd
        rcases List.mem_filterMap.mp hd with ⟨i, hi, hfi⟩
        exact ⟨i, hi, hfi⟩
      · by_cases hmem : none ∈ l.map (fun i => i.discount_percent)
        · rw [if_pos hmem] at h
          exact absurd (List.mem_singleton.mp h) (by simp)
        · rw [if_neg hmem] at h
          cases h
    · rintro ⟨i, hi, hd⟩
      left
      apply List.mem_map.mpr
      refine ⟨dv, ?_, rfl⟩
      rw [(List.perm_insertionSort _ _).mem_iff, List.mem_dedup]
      exact List.mem_filterMap.mpr ⟨i, hi, hd⟩

theorem ordered_keys_nodup (l : List PromoUsageInfo) : (ordered_keys l).Nodup := by
  unfold ordered_keys
  rw [List.nodup_append]
  refine ⟨?_, ?_, ?_⟩
  · exact ((List.perm_insertionSort _ _).nodup_iff.mpr
      (List.nodup_dedup _)).map (Option.some_injective Int)
  · split
    · simp
    · simp
  · intro a ha hb
    rcases List.mem_map.mp ha with ⟨d, _, rfl⟩
    split at hb
    · rw [List.mem_singleton] at hb
      cases hb
    · cases hb

theorem ordered_keys_pairwise (l : List PromoUsageInfo) :
    (ordered_keys l).Pairwise discountAfter := by
  unfold ordered_keys
  rw [List.pairwise_append]
  refine ⟨?_, ?_, ?_⟩
  · rw [List.pairwise_map]
    have hs := List.sorted_insertionSort (fun a b : Int => b ≤ a)
      ((l.filterMap (fun i => i.discount_percent)).dedup)
    have hn : (List.insertionSort (fun a b : Int => b ≤ a)
        ((l.filterMap (fun i => i.discount_percent)).dedup)).Nodup :=
      (List.perm_insertionSort _ _).nodup_iff.mpr (List.nodup_dedup _)
    exact (List.Pairwise.and hs hn).imp
      (fun h => lt_of_le_of_ne h.1 (Ne.symm h.2))
  · split
    · simp
    · simp
  · intro a ha b hb
    rcases List.mem_map.mp ha with ⟨d, _, rfl⟩
    split at hb
    · rw [List.mem_singleton] at hb
      subst hb
      trivial
    · cases hb

/-- C6: grouping the filtered, sorted entries produces one group per distinct
discount percentage plus an explicit unknown group exactly when some entry has
no discount; groups are ordered by descending percentage with the unknown
group last; `summary_totals` holds one entry per group with the code count,
the sum of known usage values and the unknown-usage count; the grand total of
the group code counts is the number of entries and the grand total of the
group usage sums is the total known usage; and the spec's example groups to
`{50: count 2, sum 5}` before `{unknown: count 1, sum 1}`. -/
theorem report_grouping (l : List PromoUsageInfo) :
    (∀ k, k ∈ ordered_keys l ↔ ∃ i ∈ l, i.discount_percent = k) ∧
    (ordered_keys l).Nodup ∧
    (ordered_keys l).Pairwise discountAfter ∧
    summary_totals l = (ordered_keys l).map (group_summary l) ∧
    total_codes l = l.length ∧
    total_known_usage l = (l.filterMap (fun i => i.usage_left)).sum ∧
    summary_totals exGrouping = [(some 50, 2, 5, 0), (none, 1, 1, 0)] := by
  have hmem := ordered_keys_mem l
  have hnd := ordered_keys_nodup l
  have hne : ∀ k ∈ ordered_keys l, (group_items l k).isEmpty = false := by
    intro k hk
    rcases (hmem k).mp hk with ⟨i, hi, hd⟩
    rw [List.isEmpty_eq_false_iff_exists_mem]
    exact ⟨i, List.mem_filter.mpr ⟨hi, by simp [hd]⟩⟩
  have hsummary : summary_totals l = (ordered_keys l).map (group_summary l) :=
    filterMap_if_eq_map _ _ _ hne
  have hcov : ∀ i ∈ l, i.discount_percent ∈ ordered_keys l :=
    fun i hi => (hmem _).mpr ⟨i, hi, rfl⟩
  refine ⟨hmem, hnd, ordered_keys_pairwise l, hsummary, ?_, ?_, by decide⟩
  · unfold total_codes
    rw [hsummary, List.map_map]
    calc ((ordered_keys l).map ((fun e => e.2.1) ∘ group_summary l)).sum
        = ((ordered_keys l).map
            (fun k => ((group_items l k).map (fun _ => (1 : Nat))).sum)).sum := by
          congr 1
          apply List.map_congr_left
          intro k _
          show (group_items l k).length = ((group_items l k).map (fun _ => (1:Nat))).sum
          rw [map_const_one_sum]
      _ = (l.map (fun _ => (1 : Nat))).sum := sum_over_groups _ hnd _ l hcov
      _ = l.length := map_const_one_sum l
  · unfold total_known_usage
    rw [hsummary, List.map_map]
    calc ((ordered_keys l).map ((fun e => e.2.2.1) ∘ group_summary l)).sum
        = ((ordered_keys l).map
            (fun k => ((group_items l k).map (fun i => (i.usage_left).getD 0)).sum)).sum := by
          congr 1
          apply List.map_congr_left
          intro k _
          show ((group_items l k).filterMap (fun i => i.usage_left)).sum
            = ((group_items l k).map (fun i => (i.usage_left).getD 0)).sum
          rw [filterMap_usage_sum]
      _ = (l.map (fun i => (i.usage_left).getD 0)).sum := sum_over_groups _ hnd _ l hcov
      _ = (l.filterMap (fun i => i.usage_left)).sum := (filterMap_usage_sum l).symm
